import Mathlib

/-!
# Verification of the apex accessibility scan/fix pipeline

Shallow embedding of the core pure logic of the repository:

* `src/lib/github.ts` — scoring and WCAG/AODA classification
* `src/lib/ai-fixer.ts` — fix orchestration (batch loop, fix persistence,
  snippet patching, repository-tree application)
* `src/lib/sandbox.ts` — sandboxed command execution (timeout behaviour)
* `src/lib/repo-path.ts` — repository file-path normalisation

JavaScript numbers are modelled by `ℚ`/`ℤ` (all quantities involved are
small integers or ratios of small integers), strings by `String` or
`List Char`, and the database / filesystem by explicit state values.
-/

namespace Apex

/-! ## Scoring engine (`src/lib/github.ts`)

`IMPACT_WEIGHTS` is a record `{critical: 10, serious: 7, moderate: 4,
minor: 1}`; `getImpactWeight` looks a key up and defaults to 1.
`Math.round` in JS rounds half-up, i.e. `⌊x + 1/2⌋`. -/

def getImpactWeight (impact : String) : ℚ :=
  if impact = "critical" then 10
  else if impact = "serious" then 7
  else if impact = "moderate" then 4
  else if impact = "minor" then 1
  else 1

def jsRound (q : ℚ) : ℤ := ⌊q + 1/2⌋

/-- `calculateAccessibilityScore` from `src/lib/github.ts`.  A violation is
represented by its `impact` string (the only field the function reads). -/
def calculateAccessibilityScore (violations : List String) : ℤ :=
  if violations.length = 0 then 100
  else
    let totalWeight : ℚ := violations.foldl (fun sum v => sum + getImpactWeight v) 0
    let maxPossible : ℚ := (violations.length : ℚ) * 10
    max 0 (jsRound (100 - totalWeight / maxPossible * 100))

/-! Spec-side rendering of the scoring formula, written from the words of
the specification ("score = round(100 - (Σweight / (count × 10)) × 100),
clamped to ≥0" with the weight table) — used only to compare against the
source-derived `calculateAccessibilityScore`. -/

def specImpactWeights : List (String × ℚ) :=
  [("critical", 10), ("serious", 7), ("moderate", 4), ("minor", 1)]

def specImpactWeight (impact : String) : ℚ :=
  (specImpactWeights.lookup impact).getD 1

def specScore (violations : List String) : ℤ :=
  max 0 (jsRound
    (100 - (violations.map specImpactWeight).sum / ((violations.length : ℚ) * 10) * 100))

/-! ## WCAG / AODA classification (`src/lib/github.ts`)

`extractWcagCriteria` keeps the tags fully matching `^wcag\d+$` or
`^wcag\d{3,}$`; `isAodaRelevant` runs the unanchored search
`/wcag(\d)(\d)(\d+)/` over each kept criterion (`\d+` greedy), builds the
key `X.Y.Z` and consults the `WCAG_TO_AODA` record.  Every entry of that
record in the source has `relevant: true`; the descriptions are not
consulted by `isAodaRelevant` and are omitted here. -/

/-- Full match of `^wcag\d+$`: "wcag" followed by one or more digits. -/
def isWcagDigitsTag (cs : List Char) : Bool :=
  cs.take 4 == ['w', 'c', 'a', 'g'] && decide (cs.drop 4 ≠ []) && (cs.drop 4).all Char.isDigit

/-- Full match of `^wcag\d{3,}$`: "wcag" followed by at least three digits. -/
def isWcagThreeDigitsTag (cs : List Char) : Bool :=
  cs.take 4 == ['w', 'c', 'a', 'g'] && decide (3 ≤ (cs.drop 4).length) &&
    (cs.drop 4).all Char.isDigit

def extractWcagCriteria (tags : List String) : List String :=
  tags.filter (fun tag => isWcagDigitsTag tag.data || isWcagThreeDigitsTag tag.data)

/-- One attempt of `/wcag(\d)(\d)(\d+)/` at the head of `cs`: literal
"wcag", two digit captures, then a greedy non-empty digit run. -/
def wcagMatchHere (cs : List Char) : Option (Char × Char × List Char) :=
  if cs.take 4 = ['w', 'c', 'a', 'g'] then
    match cs.drop 4 with
    | d1 :: d2 :: tail =>
        if d1.isDigit && d2.isDigit && decide (tail.takeWhile Char.isDigit ≠ []) then
          some (d1, d2, tail.takeWhile Char.isDigit)
        else none
    | _ => none
  else none

/-- Leftmost unanchored match of `/wcag(\d)(\d)(\d+)/` (the regex engine
retries at the next position after a failed attempt). -/
def wcagCapture : List Char → Option (Char × Char × List Char)
  | [] => none
  | c :: rest =>
      match wcagMatchHere (c :: rest) with
      | some r => some r
      | none => wcagCapture rest

/-- The `WCAG_TO_AODA` lookup table (criterion id ↦ `relevant` flag). -/
def WCAG_TO_AODA : List (String × Bool) :=
  [("1.1.1", true), ("1.2.1", true), ("1.2.2", true), ("1.2.3", true),
   ("1.3.1", true), ("1.3.2", true), ("1.3.3", true), ("1.4.1", true),
   ("1.4.2", true), ("1.4.3", true), ("1.4.4", true), ("1.4.5", true),
   ("2.1.1", true), ("2.1.2", true), ("2.2.1", true), ("2.2.2", true),
   ("2.3.1", true), ("2.4.1", true), ("2.4.2", true), ("2.4.3", true),
   ("2.4.4", true), ("2.4.5", true), ("2.4.6", true), ("2.4.7", true),
   ("3.1.1", true), ("3.1.2", true), ("3.2.1", true), ("3.2.2", true),
   ("3.2.3", true), ("3.2.4", true), ("3.3.1", true), ("3.3.2", true),
   ("3.3.3", true), ("3.3.4", true), ("4.1.1", true), ("4.1.2", true)]

/-- The key `` `${match[1]}.${match[2]}.${match[3]}` ``. -/
def wcagKey (d1 d2 : Char) (ds : List Char) : String :=
  String.mk [d1] ++ "." ++ String.mk [d2] ++ "." ++ String.mk ds

def isAodaRelevant (wcagCriteria : List String) : Bool :=
  wcagCriteria.any (fun criterion =>
    match wcagCapture criterion.data with
    | some (d1, d2, ds) => (WCAG_TO_AODA.lookup (wcagKey d1 d2 ds)).getD false
    | none => false)

/-! ## Sandbox command execution (`src/lib/sandbox.ts`)

`execInSandbox` attaches to a Docker exec stream and resolves a promise.
Chunks arrive on the multiplexed stream in 8-byte-header frames
(`[stream_type(1)][0(3)][size(4 big-endian)][payload]`, type 1 = stdout);
a timer set to `timeoutMs` destroys the stream, demuxes what is pending
and RESOLVES with `{stdout: <buffered>, exitCode: -1}`; a stream `end`
before the timer resolves with the inspected exit code (`?? 1`); a stream
`error` (or a failing inspect) rejects.  The asynchronous behaviour is
modelled by a time-stamped event trace processed in arrival order; the
timer wins against every event whose arrival time is `≥ timeoutMs`. -/

def frameSize (b4 b5 b6 b7 : Nat) : Nat := ((b4 * 256 + b5) * 256 + b6) * 256 + b7

/-- Frame demultiplexer (`demuxPending`): returns (stdout bytes, stderr
bytes); a trailing incomplete frame stays un-demuxed.  The fuel argument
(one unit per frame, each frame consumes ≥ 8 bytes) makes the recursion
structural; `buf.length` units always suffice. -/
def demuxFramesAux : Nat → List Nat → List Nat × List Nat
  | fuel + 1, b0 :: _ :: _ :: _ :: b4 :: b5 :: b6 :: b7 :: rest =>
      let size := frameSize b4 b5 b6 b7
      if size ≤ rest.length then
        let payload := rest.take size
        let cont := demuxFramesAux fuel (rest.drop size)
        if b0 = 1 then (payload ++ cont.1, cont.2) else (cont.1, payload ++ cont.2)
      else ([], [])
  | _ + 1, _ => ([], [])
  | 0, _ => ([], [])

def demuxFrames (buf : List Nat) : List Nat × List Nat := demuxFramesAux buf.length buf

inductive ExecEvent where
  | data (chunk : List Nat)
  | streamEnd (inspect : Except Unit (Option Int))
  | streamError

inductive ExecOutcome where
  | resolved (stdout : List Nat) (exitCode : Int)
  | rejected
deriving DecidableEq

/-- An event that would settle the promise through the stream (end or
error), as opposed to a data chunk. -/
def isStreamSettlingEvent : ExecEvent → Bool
  | .data _ => false
  | _ => true

/-- `execInSandbox`'s promise resolution as a function of the event trace
(event arrival time in ms, event), processed in arrival order with the
accumulated raw byte buffer. -/
def execInSandboxModel (timeoutMs : Nat) : List (Nat × ExecEvent) → List Nat → ExecOutcome
  | [], buf => .resolved (demuxFrames buf).1 (-1)
  | (t, e) :: rest, buf =>
      if timeoutMs ≤ t then .resolved (demuxFrames buf).1 (-1)
      else
        match e with
        | .data chunk => execInSandboxModel timeoutMs rest (buf ++ chunk)
        | .streamEnd (.ok c) => .resolved (demuxFrames buf).1 (c.getD 1)
        | .streamEnd (.error _) => .rejected
        | .streamError => .rejected

/-- The bytes of the data chunks that arrive strictly before the timer. -/
def dataReceivedBefore (timeoutMs : Nat) : List (Nat × ExecEvent) → List Nat
  | [] => []
  | (t, e) :: rest =>
      if timeoutMs ≤ t then []
      else
        match e with
        | .data chunk => chunk ++ dataReceivedBefore timeoutMs rest
        | _ => dataReceivedBefore timeoutMs rest

/-! ## Snippet patching (`src/lib/ai-fixer.ts`: `applySnippetFix`,
`applyLineLevelFix`, `countLineOccurrences`, `replaceLineOnce`)

Strings are modelled as `List Char`.  `indexOfSub? pat s` is JS
`s.indexOf(pat)`.  `countLineOccurrences` and `replaceLineOnce` run the
regex `` (^|\n)L(?=\n|$) `` with `L` the regex-escaped literal line; since
`L` is always an element of a `split("\n")` (newline-free), the matches
of that regex are exactly the full lines of the content equal to `L`, so
both functions are modelled on the split-lines form.  JS `trim()` is
modelled on the ASCII whitespace class (the snippets are source code). -/

def jsWhitespace (c : Char) : Bool :=
  c = ' ' || c = '\t' || c = '\n' || c = '\r' || c = '\x0b' || c = '\x0c'

def jsTrim (s : List Char) : List Char :=
  ((s.dropWhile jsWhitespace).reverse.dropWhile jsWhitespace).reverse

/-- JS `s.indexOf(pat)` (first occurrence; `none` for not found). -/
def indexOfSub? (pat : List Char) : List Char → Option Nat
  | [] => if pat.isPrefixOf [] then some 0 else none
  | c :: t => if pat.isPrefixOf (c :: t) then some 0 else (indexOfSub? pat t).map (· + 1)

/-- JS `replace(/\r\n/g, "\n")` (global, left-to-right). -/
def normalizeCrlf : List Char → List Char
  | '\r' :: '\n' :: rest => '\n' :: normalizeCrlf rest
  | c :: rest => c :: normalizeCrlf rest
  | [] => []

/-- JS `String.split(sep)` for a single-character separator. -/
def splitOnChar (sep : Char) : List Char → List (List Char)
  | [] => [[]]
  | c :: rest =>
      if c = sep then [] :: splitOnChar sep rest
      else
        match splitOnChar sep rest with
        | [] => [[c]]
        | l :: ls => (c :: l) :: ls

def splitLines : List Char → List (List Char) := splitOnChar '\n'

def joinLines : List (List Char) → List Char
  | [] => []
  | [l] => l
  | l :: ls => l ++ '\n' :: joinLines ls

/-- Number of full lines of `content` equal to `line` (the regex
`(^|\n)L(?=\n|$)` match count; 0 for the empty line, per the early
return). -/
def countLineOccurrences (content line : List Char) : Nat :=
  if line = [] then 0 else (splitLines content).count line

def replaceFirstLine : List (List Char) → List Char → List Char → List (List Char)
  | [], _, _ => []
  | l :: ls, fromLine, toLine =>
      if l = fromLine then toLine :: ls else l :: replaceFirstLine ls fromLine toLine

/-- Replace the first full line equal to `fromLine` by `toLine`. -/
def replaceLineOnce (content fromLine toLine : List Char) : List Char :=
  if fromLine = [] then content
  else joinLines (replaceFirstLine (splitLines content) fromLine toLine)

/-- One iteration of `applyLineLevelFix`'s loop: state is (current
content, `appliedAny`), the pair is (original line, fixed line). -/
def lineFixStep (st : List Char × Bool) (ft : List Char × List Char) : List Char × Bool :=
  if ft.1 = ft.2 then st
  else if jsTrim ft.1 = [] then st
  else if countLineOccurrences st.1 ft.1 ≠ 1 then st
  else
    let replaced := replaceLineOnce st.1 ft.1 ft.2
    if replaced = st.1 then st else (replaced, true)

def applyLineLevelFix (content originalCode fixedCode : List Char) : List Char × Bool :=
  let originalLines := splitLines originalCode
  let fixedLines := splitLines fixedCode
  if originalLines.length ≠ fixedLines.length then (content, false)
  else
    let result := (originalLines.zip fixedLines).foldl lineFixStep (content, false)
    (result.1, result.2 && decide (result.1 ≠ content))

def applySnippetFix (content originalCode fixedCode : List Char) : List Char × Bool :=
  if originalCode = [] then
    if fixedCode = [] ∨ content = fixedCode then (content, false) else (fixedCode, true)
  else
    match indexOfSub? originalCode content with
    | some i =>
        (content.take i ++ fixedCode ++ content.drop (i + originalCode.length), true)
    | none =>
        let normalizedContent := normalizeCrlf content
        let normalizedOriginal := normalizeCrlf originalCode
        let normalizedFixed := normalizeCrlf fixedCode
        match indexOfSub? normalizedOriginal normalizedContent with
        | some i =>
            (normalizedContent.take i ++ normalizedFixed ++
              normalizedContent.drop (i + normalizedOriginal.length), true)
        | none =>
            let trimmedOriginal := jsTrim normalizedOriginal
            if trimmedOriginal = [] then (content, false)
            else
              match indexOfSub? trimmedOriginal normalizedContent with
              | some i =>
                  (normalizedContent.take i ++ jsTrim normalizedFixed ++
                    normalizedContent.drop (i + trimmedOriginal.length), true)
              | none =>
                  let lineFallback := applyLineLevelFix normalizedContent
                    normalizedOriginal normalizedFixed
                  if lineFallback.2 then lineFallback else (content, false)

/-! ## Fix persistence (`src/lib/ai-fixer.ts`: `generateFixes` +
`prisma.fix.deleteMany` / `prisma.fix.upsert`)

The `Fix` table is modelled as a list of rows; `violationId` carries a
unique constraint (`Fix_violationId_key`).  `generateFixes` first runs
`prisma.fix.deleteMany({where: {scanId}})` inside the opening
transaction, then stores every extracted fix through
`prisma.fix.upsert({where: {violationId}, update: {...}, create: {...}})`
(the update clause rewrites the snippet fields and resets the status to
"pending"; the create clause also sets `scanId` and `violationId`). -/

structure FixResult where
  filePath : String
  originalCode : String
  fixedCode : String
  explanation : String
  violationId : String
deriving DecidableEq

structure FixRow where
  scanId : String
  violationId : String
  filePath : String
  originalCode : String
  fixedCode : String
  explanation : String
  status : String
deriving DecidableEq

def fixDeleteMany (scanId : String) (db : List FixRow) : List FixRow :=
  db.filter (fun r => r.scanId ≠ scanId)

/-- The `update` clause of the upsert: rewrite the payload of the row
whose `violationId` matches; `scanId` and `violationId` are untouched. -/
def fixUpdateRow (f : FixResult) (r : FixRow) : FixRow :=
  if r.violationId = f.violationId then
    { r with
      filePath := f.filePath
      originalCode := f.originalCode
      fixedCode := f.fixedCode
      explanation := f.explanation
      status := "pending" }
  else r

/-- The `create` clause of the upsert. -/
def fixCreateRow (scanId : String) (f : FixResult) : FixRow :=
  { scanId := scanId, violationId := f.violationId, filePath := f.filePath,
    originalCode := f.originalCode, fixedCode := f.fixedCode,
    explanation := f.explanation, status := "pending" }

def fixUpsert (scanId : String) (f : FixResult) (db : List FixRow) : List FixRow :=
  if db.any (fun r => r.violationId = f.violationId) then db.map (fixUpdateRow f)
  else db ++ [fixCreateRow scanId f]

def runFixUpserts (scanId : String) (fixes : List FixResult) (db : List FixRow) : List FixRow :=
  fixes.foldl (fun d f => fixUpsert scanId f d) db

/-- The database effect of one fixing run: wipe the scan's rows, then
upsert every extracted fix keyed by its violation id. -/
def generateFixesDb (scanId : String) (fixes : List FixResult) (db : List FixRow) : List FixRow :=
  runFixUpserts scanId fixes (fixDeleteMany scanId db)

/-- The unique constraint on `Fix.violationId`: pairwise distinct ids. -/
def uniqueViolationIds (db : List FixRow) : Prop :=
  db.Pairwise (fun a b => a.violationId ≠ b.violationId)

/-! ## Post-run reconciliation (`src/lib/ai-fixer.ts`, end of
`generateFixes`)

When no fix was extracted across the whole run, the scan row is updated
to `status: "complete"`, `scoreAfter` is set to
`scan.score ?? calculateAccessibilityScore(scan.violations)`, the before
screenshot is carried over and a diagnostic message is stored in
`errorMessage`.  Otherwise the post-fix re-scan outcome (an input to the
model, as it is external I/O) determines `scoreAfter`. -/

structure ViolationRec where
  id : String
  impact : String
deriving DecidableEq

structure ScanModel where
  status : String
  score : Option ℤ
  scoreAfter : Option ℤ
  errorMessage : Option String
  beforeScreenshot : Option String
  afterScreenshot : Option String
  violations : List ViolationRec
deriving DecidableEq

def joinWith (sep : String) : List String → String
  | [] => ""
  | [s] => s
  | s :: rest => s ++ sep ++ joinWith sep rest

/-- `diagnostics.join(" | ").slice(0, 240)`. -/
def diagnosticsExtra (diagnostics : List String) : String :=
  ⟨(joinWith " | " diagnostics).data.take 240⟩

def noFixesMessage (selectedModel : String) (processedViolationCount attemptedBatchCount : Nat)
    (diagnostics : List String) : String :=
  "No fixes were produced by the AI fixer (model: " ++ selectedModel ++ "). " ++
    "Processed " ++ toString processedViolationCount ++ " violation(s) across " ++
    toString attemptedBatchCount ++ " batch(es). " ++
    (if diagnosticsExtra diagnostics = "" then "The model returned no applicable edits."
     else diagnosticsExtra diagnostics)

/-- The zero-fix branch of the reconciliation. -/
def finalizeNoFixes (scan : ScanModel) (selectedModel : String)
    (processedViolationCount attemptedBatchCount : Nat) (diagnostics : List String) :
    ScanModel :=
  let scoreBefore :=
    scan.score.getD (calculateAccessibilityScore (scan.violations.map (·.impact)))
  { scan with
    status := "complete"
    scoreAfter := some scoreBefore
    afterScreenshot := scan.beforeScreenshot
    errorMessage := some (noFixesMessage selectedModel processedViolationCount
      attemptedBatchCount diagnostics) }

/-- The non-empty branch: `scoreAfter` comes from the post-fix re-scan
(each violation's impact replicated `max 1 nodeCount` times), or — only
when that re-scan failed — from the violations without a stored fix, with
an explicit warning. -/
def finalizeWithFixes (scan : ScanModel)
    (postFixScan : Except String (List (String × Nat)))
    (storedFixes : List FixRow)
    (afterScreenshot : Option String)
    (warnings : List String) : ScanModel :=
  match postFixScan with
  | .ok scanned =>
      let impacts := scanned.flatMap (fun v => List.replicate (max 1 v.2) v.1)
      { scan with
        status := "complete"
        scoreAfter := some (calculateAccessibilityScore impacts)
        afterScreenshot := afterScreenshot
        errorMessage :=
          if joinWith " " warnings = "" then none else some (joinWith " " warnings) }
  | .error e =>
      let remaining := scan.violations.filter
        (fun v => ¬ storedFixes.any (fun f => f.violationId = v.id))
      { scan with
        status := "complete"
        scoreAfter := some (calculateAccessibilityScore (remaining.map (·.impact)))
        afterScreenshot := afterScreenshot
        errorMessage := some (joinWith " "
          (warnings ++ ["Post-fix re-scan failed; using inferred score. " ++ e])) }

/-- The final scan update of `generateFixes`, dispatching on whether any
fix was extracted. -/
def generateFixesFinalize (scan : ScanModel) (fixes : List FixResult)
    (selectedModel : String) (processedViolationCount attemptedBatchCount : Nat)
    (diagnostics : List String)
    (postFixScan : Except String (List (String × Nat)))
    (storedFixes : List FixRow)
    (afterScreenshot : Option String)
    (warnings : List String) : ScanModel :=
  if fixes = [] then
    finalizeNoFixes scan selectedModel processedViolationCount attemptedBatchCount diagnostics
  else
    finalizeWithFixes scan postFixScan storedFixes afterScreenshot warnings

/-! ## Repository paths and on-tree application (`src/lib/repo-path.ts`,
`src/lib/ai-fixer.ts`: `applyFixesToRepoPath`)

`normalizeRepoFilePath` is the source's chain of replacements (trim,
backslash→slash, strip a case-insensitive `file://`, strip leading
slashes, strip one leading `workspace/…/`, strip one leading `./…/`,
collapse slash runs).  Absolute paths are modelled as segment lists
(`path.resolve(repoRoot, p)` = process `p`'s `/`-separated segments over
the already-resolved root, where `..` pops, `.` and empty segments are
dropped); the string guard
`absolutePath === repoRoot || absolutePath.startsWith(repoRoot + sep)`
is, at segment level, `absolutePath = repoRoot ∨ (repoRoot a prefix of
absolutePath ∧ absolutePath ≠ repoRoot)`.  The filesystem is a map from
absolute segment paths to file contents. -/

/-- Case-insensitive literal-prefix strip (for `^file:\/\//i`; `pre` is
given in lowercase). -/
def stripPrefixCI (pre : List Char) (s : List Char) : List Char :=
  if (s.take pre.length).map Char.toLower = pre then s.drop pre.length else s

/-- `replace(/\/{2,}/g, "/")`: collapse every run of ≥ 2 slashes. -/
def collapseSlashes : List Char → List Char
  | [] => []
  | [c] => [c]
  | c1 :: c2 :: rest =>
      if c1 = '/' ∧ c2 = '/' then collapseSlashes (c2 :: rest)
      else c1 :: collapseSlashes (c2 :: rest)

def normalizeRepoFilePath (filePath : Option String) : List Char :=
  let s0 := (jsTrim (filePath.getD "").data).map (fun c => if c = '\\' then '/' else c)
  if s0 = [] then []
  else
    let s1 := stripPrefixCI "file://".data s0
    let s2 := s1.dropWhile (· = '/')
    let s3 := if "workspace/".data.isPrefixOf s2 then (s2.drop 9).dropWhile (· = '/') else s2
    let s4 := if ['.', '/'].isPrefixOf s3 then (s3.drop 1).dropWhile (· = '/') else s3
    collapseSlashes s4

/-- `path.resolve(base, rel)` with `base` already resolved: left fold of
`rel`'s segments (`..` pops, `.`/empty are no-ops). -/
def resolveSegs (base : List (List Char)) (rel : List Char) : List (List Char) :=
  (splitOnChar '/' rel).foldl
    (fun acc seg =>
      if seg = [] ∨ seg = ['.'] then acc
      else if seg = ['.', '.'] then acc.dropLast
      else acc ++ [seg])
    base

abbrev RepoFs := List (List Char) → Option (List Char)

def normalizeSnippetForCompare (snippet : List Char) : List Char :=
  jsTrim (normalizeCrlf snippet)

/-- Append `f` to its file's group, preserving first-insertion order of
files (JS `Map` iteration order). -/
def addFixToGroups (groups : List (List Char × List FixResult)) (key : List Char)
    (f : FixResult) : List (List Char × List FixResult) :=
  match groups with
  | [] => [(key, [f])]
  | (k, fs) :: rest =>
      if k = key then (k, fs ++ [f]) :: rest else (k, fs) :: addFixToGroups rest key f

/-- The grouping loop of `applyFixesToRepoPath`: skip unnormalisable
paths, skip fixes whose two snippets compare equal, deduplicate by
(file, originalCode, fixedCode). -/
def groupFixesByFile (fixes : List FixResult) : List (List Char × List FixResult) :=
  fixes.foldl
    (fun groups f =>
      let filePath := normalizeRepoFilePath (some f.filePath)
      if filePath = [] then groups
      else if normalizeSnippetForCompare f.originalCode.data =
          normalizeSnippetForCompare f.fixedCode.data then groups
      else if groups.any (fun kv =>
          decide (kv.1 = filePath) && kv.2.any (fun g =>
            decide (g.originalCode = f.originalCode) &&
            decide (g.fixedCode = f.fixedCode))) then groups
      else addFixToGroups groups filePath f)
    []

/-- Apply a file's fixes in order to its content, counting applications. -/
def applyFixesToFileContent (content : List Char) (fileFixes : List FixResult) :
    List Char × Nat :=
  fileFixes.foldl
    (fun (st : List Char × Nat) fix =>
      let pr := applySnippetFix st.1 fix.originalCode.data fix.fixedCode.data
      if pr.2 then (pr.1, st.2 + 1) else st)
    (content, 0)

/-- One file of `applyFixesToRepoPath`'s loop: resolve the path, check
the root guard, read, patch, and write back only when something was
applied and the content changed. -/
def applyFixStep (repoRoot : List (List Char)) (st : RepoFs × Nat × Nat)
    (kv : List Char × List FixResult) : RepoFs × Nat × Nat :=
  let absolutePath := resolveSegs repoRoot kv.1
  if absolutePath = repoRoot ∨
      (List.isPrefixOf repoRoot absolutePath = true ∧ absolutePath ≠ repoRoot) then
    match st.1 absolutePath with
    | none => st
    | some originalContent =>
        let res := applyFixesToFileContent originalContent kv.2
        if res.2 = 0 ∨ res.1 = originalContent then st
        else
          (fun q => if q = absolutePath then some res.1 else st.1 q,
           st.2.1 + 1, st.2.2 + res.2)
  else st

/-- `applyFixesToRepoPath`: returns (filesystem, changedFileCount,
appliedFixCount). -/
def applyFixesToRepoPath (repoRoot : List (List Char)) (fixes : List FixResult)
    (fs : RepoFs) : RepoFs × Nat × Nat :=
  (groupFixesByFile fixes).foldl (applyFixStep repoRoot) (fs, 0, 0)

/-! ## The single-worker batch loop (`src/lib/ai-fixer.ts`,
`generateFixes` lines 1337–1380)

Constants `MAX_CONSECUTIVE_EMPTY_BATCHES = 3` and
`MIN_BATCH_DURATION_MS = 3000`.  Each iteration: check the remaining
total budget; check the consecutive-empty-batch circuit breaker; stop on
an empty batch; otherwise invoke the agent with a per-batch timeout of
`Math.max(15, Math.min(opencodeTimeoutSeconds, remainingBudgetSeconds))`
seconds.  The agent's behaviour and the wall clock are inputs: a batch
carries the elapsed seconds observed at its budget check, the number of
fixes the invocation returns and its duration. -/

def MAX_CONSECUTIVE_EMPTY_BATCHES : Nat := 3

def MIN_BATCH_DURATION_MS : Nat := 3000

structure BatchSim where
  elapsedBefore : Nat
  size : Nat
  fixCount : Nat
  durationMs : Nat
deriving DecidableEq

structure LoopState where
  invoked : List (Nat × Int)
  diagnostics : List String
  warning : Option String
  consecutiveEmpty : Nat
  attempted : Nat
deriving DecidableEq

def initialLoopState : LoopState :=
  { invoked := [], diagnostics := [], warning := none, consecutiveEmpty := 0, attempted := 0 }

def budgetWarning (totalTimeoutSeconds : Nat) : String :=
  "AI fixer stopped after " ++ toString totalTimeoutSeconds ++ "s budget (MVP time limit)."

def earlyBailWarning (k : Nat) : String :=
  "AI fixer stopped: " ++ toString k ++
    " consecutive batches returned 0 fixes (model may be misconfigured)."

def earlyBailDiagnostic (k : Nat) : String :=
  "early bail: " ++ toString k ++ " consecutive empty batches"

def instantFailureDiagnostic (attempted durationMs : Nat) : String :=
  "batch " ++ toString attempted ++ ": completed in " ++ toString durationMs ++
    "ms with 0 fixes (likely instant failure)"

def runBatches (opencodeTimeoutSeconds totalTimeoutSeconds : Nat) :
    List BatchSim → Nat → LoopState → LoopState
  | [], _, st => st
  | b :: rest, idx, st =>
      let remainingBudgetSeconds : Int :=
        (totalTimeoutSeconds : Int) - (b.elapsedBefore : Int)
      if remainingBudgetSeconds ≤ 0 then
        { st with
          warning := some (budgetWarning totalTimeoutSeconds)
          diagnostics := st.diagnostics ++ ["overall timeout budget reached"] }
      else if MAX_CONSECUTIVE_EMPTY_BATCHES ≤ st.consecutiveEmpty then
        { st with
          warning := some (earlyBailWarning st.consecutiveEmpty)
          diagnostics := st.diagnostics ++ [earlyBailDiagnostic st.consecutiveEmpty] }
      else if b.size = 0 then st
      else
        let batchTimeoutSeconds : Int :=
          max 15 (min (opencodeTimeoutSeconds : Int) remainingBudgetSeconds)
        let attempted := st.attempted + 1
        let st1 :=
          { st with
            attempted := attempted
            invoked := st.invoked ++ [(idx, batchTimeoutSeconds)] }
        let st2 :=
          if b.fixCount = 0 then
            { st1 with
              consecutiveEmpty := st1.consecutiveEmpty + 1
              diagnostics :=
                st1.diagnostics ++
                  (if b.durationMs < MIN_BATCH_DURATION_MS then
                    [instantFailureDiagnostic attempted b.durationMs]
                  else []) }
          else { st1 with consecutiveEmpty := 0 }
        runBatches opencodeTimeoutSeconds totalTimeoutSeconds rest (idx + 1) st2

/-- The whole single-worker batch loop. -/
def runBatchLoop (opencodeTimeoutSeconds totalTimeoutSeconds : Nat)
    (batches : List BatchSim) : LoopState :=
  runBatches opencodeTimeoutSeconds totalTimeoutSeconds batches 0 initialLoopState

/-! ## Lemmas and claim theorems -/

lemma getImpactWeight_eq_spec (s : String) : getImpactWeight s = specImpactWeight s := by
  unfold getImpactWeight specImpactWeight specImpactWeights
  by_cases h1 : s = "critical"
  · subst h1; rfl
  by_cases h2 : s = "serious"
  · subst h2; rfl
  by_cases h3 : s = "moderate"
  · subst h3; rfl
  by_cases h4 : s = "minor"
  · subst h4; rfl
  have b1 : (s == "critical") = false := beq_false_of_ne h1
  have b2 : (s == "serious") = false := beq_false_of_ne h2
  have b3 : (s == "moderate") = false := beq_false_of_ne h3
  have b4 : (s == "minor") = false := beq_false_of_ne h4
  simp [List.lookup, b1, b2, b3, b4, h1, h2, h3, h4]

lemma foldl_add_eq_sum (f : String → ℚ) :
    ∀ (l : List String) (init : ℚ),
      l.foldl (fun sum v => sum + f v) init = init + (l.map f).sum := by
  intro l
  induction l with
  | nil => intro init; simp
  | cons a t ih =>
      intro init
      simp only [List.foldl_cons, List.map_cons, List.sum_cons, ih]
      ring

lemma one_le_getImpactWeight (s : String) : 1 ≤ getImpactWeight s := by
  unfold getImpactWeight
  split_ifs <;> norm_num

lemma length_le_sum_weights :
    ∀ l : List String, (l.length : ℚ) ≤ (l.map getImpactWeight).sum := by
  intro l
  induction l with
  | nil => simp
  | cons a t ih =>
      simp only [List.length_cons, List.map_cons, List.sum_cons, Nat.cast_add, Nat.cast_one]
      have := one_le_getImpactWeight a
      linarith

lemma score_eq_of_ne_nil {l : List String} (h : ¬ l.length = 0) :
    calculateAccessibilityScore l =
      max 0 (jsRound (100 - (l.map getImpactWeight).sum / ((l.length : ℚ) * 10) * 100)) := by
  unfold calculateAccessibilityScore
  rw [if_neg h]
  simp only [foldl_add_eq_sum, zero_add]

lemma score_le_hundred (l : List String) : calculateAccessibilityScore l ≤ 100 := by
  by_cases h : l.length = 0
  · unfold calculateAccessibilityScore
    rw [if_pos h]
  · rw [score_eq_of_ne_nil h]
    have hn : (0 : ℚ) < l.length := by
      exact_mod_cast Nat.pos_of_ne_zero h
    have ht : (l.length : ℚ) ≤ (l.map getImpactWeight).sum := length_le_sum_weights l
    have hratio : (1 : ℚ) / 10 ≤ (l.map getImpactWeight).sum / ((l.length : ℚ) * 10) := by
      rw [div_le_div_iff₀ (by norm_num) (by positivity)]
      linarith
    have hmono :
        jsRound (100 - (l.map getImpactWeight).sum / ((l.length : ℚ) * 10) * 100) ≤
          jsRound 90 := Int.floor_le_floor (by linarith)
    have h90 : jsRound (90 : ℚ) = 90 := by rw [jsRound]; norm_num
    exact max_le (by norm_num) (by omega)

lemma zero_le_score (l : List String) : 0 ≤ calculateAccessibilityScore l := by
  by_cases h : l.length = 0
  · unfold calculateAccessibilityScore
    rw [if_pos h]
    norm_num
  · rw [score_eq_of_ne_nil h]
    exact le_max_left 0 _

lemma score_perm_invariant {l l' : List String} (hp : l.Perm l') :
    calculateAccessibilityScore l = calculateAccessibilityScore l' := by
  by_cases h : l.length = 0
  · have h' : l'.length = 0 := hp.length_eq ▸ h
    unfold calculateAccessibilityScore
    rw [if_pos h, if_pos h']
  · have h' : ¬ l'.length = 0 := hp.length_eq ▸ h
    rw [score_eq_of_ne_nil h, score_eq_of_ne_nil h']
    rw [(hp.map getImpactWeight).sum_eq, hp.length_eq]

lemma score_replicate_critical {n : ℕ} (hn : n ≠ 0) :
    calculateAccessibilityScore (List.replicate n "critical") = 0 := by
  have hlen : ¬ (List.replicate n "critical").length = 0 := by simpa using hn
  rw [score_eq_of_ne_nil hlen]
  have hw : getImpactWeight "critical" = 10 := by simp [getImpactWeight]
  have hq : (n : ℚ) ≠ 0 := Nat.cast_ne_zero.mpr hn
  rw [List.map_replicate, hw, List.sum_replicate, List.length_replicate, nsmul_eq_mul]
  rw [div_self (by positivity)]
  norm_num [jsRound]

lemma score_replicate_minor {n : ℕ} (hn : n ≠ 0) :
    calculateAccessibilityScore (List.replicate n "minor") = 90 := by
  have hlen : ¬ (List.replicate n "minor").length = 0 := by simpa using hn
  rw [score_eq_of_ne_nil hlen]
  have hw : getImpactWeight "minor" = 1 := by simp [getImpactWeight]
  have hq : (n : ℚ) ≠ 0 := Nat.cast_ne_zero.mpr hn
  rw [List.map_replicate, hw, List.sum_replicate, List.length_replicate, nsmul_eq_mul]
  rw [mul_one, show ((n : ℚ)) / ((n : ℚ) * 10) = 1 / 10 by field_simp]
  norm_num [jsRound]

/-- **C1**: for every non-empty violation list, `calculateAccessibilityScore`
computes `round(100 - (Σweight / (count × 10)) × 100)` clamped to ≥ 0, with
weights critical=10, serious=7, moderate=4, minor=1 and 1 for any other
impact string (`specScore`/`specImpactWeight` transcribe the claim's
formula); in particular four violations of impact "serious" score 30. -/
theorem c1_score_matches_spec_formula :
    (∀ l : List String, l ≠ [] → calculateAccessibilityScore l = specScore l) ∧
    calculateAccessibilityScore (List.replicate 4 "serious") = 30 := by
  constructor
  · intro l hl
    have hlen : ¬ l.length = 0 := by simpa [List.length_eq_zero] using hl
    have hmap : l.map getImpactWeight = l.map specImpactWeight :=
      List.map_congr_left fun a _ => getImpactWeight_eq_spec a
    rw [score_eq_of_ne_nil hlen, specScore, hmap]
  · simp only [calculateAccessibilityScore, List.replicate, List.foldl, getImpactWeight,
      jsRound, String.reduceEq, reduceIte]
    norm_num

/-- Witness for C1: the non-empty-list branch applied to a concrete list. -/
theorem c1_score_matches_spec_formula_witness :
    calculateAccessibilityScore ["serious", "minor"] = specScore ["serious", "minor"] :=
  c1_score_matches_spec_formula.1 ["serious", "minor"] (by simp)

/-- **C9**: the score is always in [0, 100]; the empty list scores 100; the
score is invariant under permutation of the violation list; and for every
`n ≥ 1`, `n` critical violations score strictly lower than `n` minor
violations. -/
theorem c9_score_algebraic_properties :
    (∀ l : List String,
        0 ≤ calculateAccessibilityScore l ∧ calculateAccessibilityScore l ≤ 100) ∧
    calculateAccessibilityScore [] = 100 ∧
    (∀ l l' : List String, l.Perm l' →
        calculateAccessibilityScore l = calculateAccessibilityScore l') ∧
    (∀ n : ℕ, 1 ≤ n →
        calculateAccessibilityScore (List.replicate n "critical") <
          calculateAccessibilityScore (List.replicate n "minor")) := by
  refine ⟨fun l => ⟨zero_le_score l, score_le_hundred l⟩, rfl, ?_, ?_⟩
  · intro l l' hp
    exact score_perm_invariant hp
  · intro n hn
    rw [score_replicate_critical (by omega), score_replicate_minor (by omega)]
    norm_num

/-- Witness for C9: permutation invariance and the critical-vs-minor
comparison at concrete inputs. -/
theorem c9_score_algebraic_properties_witness :
    calculateAccessibilityScore ["minor", "critical"] =
        calculateAccessibilityScore ["critical", "minor"] ∧
    calculateAccessibilityScore (List.replicate 2 "critical") <
        calculateAccessibilityScore (List.replicate 2 "minor") :=
  ⟨c9_score_algebraic_properties.2.2.1 _ _ (List.Perm.swap "critical" "minor" []),
   c9_score_algebraic_properties.2.2.2 2 (by norm_num)⟩

lemma takeWhile_eq_self_of_all {p : Char → Bool} :
    ∀ {l : List Char}, (∀ a ∈ l, p a = true) → l.takeWhile p = l := by
  intro l
  induction l with
  | nil => intro _; rfl
  | cons a t ih =>
      intro h
      rw [List.takeWhile_cons, h a (List.mem_cons_self a t)]
      simp [ih fun b hb => h b (List.mem_cons_of_mem a hb)]

lemma wcagMatchHere_of_shape {d1 d2 : Char} {ds : List Char}
    (h1 : d1.isDigit = true) (h2 : d2.isDigit = true)
    (hds : ∀ a ∈ ds, Char.isDigit a = true) (hne : ds ≠ []) :
    wcagMatchHere ('w' :: 'c' :: 'a' :: 'g' :: d1 :: d2 :: ds) = some (d1, d2, ds) := by
  unfold wcagMatchHere
  have ht : ('w' :: 'c' :: 'a' :: 'g' :: d1 :: d2 :: ds : List Char).take 4 =
      ['w', 'c', 'a', 'g'] := rfl
  have hd : ('w' :: 'c' :: 'a' :: 'g' :: d1 :: d2 :: ds : List Char).drop 4 =
      d1 :: d2 :: ds := rfl
  simp only [ht, hd, reduceIte]
  rw [takeWhile_eq_self_of_all hds]
  simp [h1, h2, hne]

lemma wcagMatchHere_eq_none_of_short {cs : List Char} (h : cs.length < 7) :
    wcagMatchHere cs = none := by
  unfold wcagMatchHere
  by_cases htake : cs.take 4 = ['w', 'c', 'a', 'g']
  · rw [if_pos htake]
    have hlen4 : 4 ≤ cs.length := by
      have h' := congrArg List.length htake
      simp at h'
      omega
    have hdroplen : (cs.drop 4).length < 3 := by
      rw [List.length_drop]; omega
    rcases hdrop : cs.drop 4 with _ | ⟨d1, _ | ⟨d2, tail⟩⟩
    · rfl
    · rfl
    · have : tail = [] := by
        rw [hdrop] at hdroplen
        simp only [List.length_cons] at hdroplen
        exact List.length_eq_zero.mp (by omega)
      subst this
      simp
  · rw [if_neg htake]

lemma wcagCapture_eq_none_of_short :
    ∀ cs : List Char, cs.length < 7 → wcagCapture cs = none := by
  intro cs
  induction cs with
  | nil => intro _; rfl
  | cons c rest ih =>
      intro h
      unfold wcagCapture
      rw [wcagMatchHere_eq_none_of_short h]
      exact ih (by simp at h ⊢; omega)

/-- **C8**: every rule tag fully matching `wcag\d\d\d+` passes the
extraction filter and is parsed by the criterion search into the key
"first digit . second digit . remaining digits", which is what
`isAodaRelevant` checks against the `WCAG_TO_AODA` table; and when no tag
matches `wcag\d\d\d+`, the violation is never AODA-relevant. -/
theorem c8_wcag_extraction_and_relevance :
    (∀ (tags : List String) (t : String), t ∈ tags →
      isWcagThreeDigitsTag t.data = true →
      t ∈ extractWcagCriteria tags ∧
      ∃ d1 d2 ds, wcagCapture t.data = some (d1, d2, ds) ∧
        t.data = 'w' :: 'c' :: 'a' :: 'g' :: d1 :: d2 :: ds ∧
        isAodaRelevant [t] = (WCAG_TO_AODA.lookup (wcagKey d1 d2 ds)).getD false) ∧
    (∀ tags : List String, (∀ t ∈ tags, isWcagThreeDigitsTag t.data = false) →
      isAodaRelevant (extractWcagCriteria tags) = false) := by
  constructor
  · intro tags t hmem htag
    have htag' := htag
    unfold isWcagThreeDigitsTag at htag'
    simp only [Bool.and_eq_true, beq_iff_eq, decide_eq_true_eq, List.all_eq_true] at htag'
    obtain ⟨⟨htake, hlen⟩, hdigits⟩ := htag'
    have hsplit : t.data = t.data.take 4 ++ t.data.drop 4 := (List.take_append_drop 4 t.data).symm
    rcases hdrop : t.data.drop 4 with _ | ⟨d1, _ | ⟨d2, ds⟩⟩
    · rw [hdrop] at hlen; simp at hlen
    · rw [hdrop] at hlen; simp at hlen
    · have hshape : t.data = 'w' :: 'c' :: 'a' :: 'g' :: d1 :: d2 :: ds := by
        rw [hsplit, htake, hdrop]; rfl
      have hdsne : ds ≠ [] := by
        rw [hdrop] at hlen
        simp only [List.length_cons] at hlen
        intro hnil
        rw [hnil] at hlen
        simp at hlen
      have hd1 : d1.isDigit = true := hdigits d1 (by rw [hdrop]; simp)
      have hd2 : d2.isDigit = true := hdigits d2 (by rw [hdrop]; simp)
      have hds : ∀ a ∈ ds, Char.isDigit a = true := fun a ha =>
        hdigits a (by rw [hdrop]; simp [ha])
      have hhere : wcagMatchHere t.data = some (d1, d2, ds) := by
        rw [hshape]; exact wcagMatchHere_of_shape hd1 hd2 hds hdsne
      have hcapture : wcagCapture t.data = some (d1, d2, ds) := by
        rw [hshape]
        unfold wcagCapture
        rw [hshape] at hhere
        rw [hhere]
      refine ⟨?_, d1, d2, ds, hcapture, hshape, ?_⟩
      · unfold extractWcagCriteria
        rw [List.mem_filter]
        exact ⟨hmem, by rw [htag]; simp⟩
      · unfold isAodaRelevant
        rw [List.any_cons, List.any_nil, hcapture]
        simp
  · intro tags hforall
    unfold isAodaRelevant
    rw [List.any_eq_false]
    intro u hu
    unfold extractWcagCriteria at hu
    rw [List.mem_filter] at hu
    obtain ⟨humem, hpred⟩ := hu
    have hthree : isWcagThreeDigitsTag u.data = false := hforall u humem
    have hdig : isWcagDigitsTag u.data = true := by
      rcases Bool.or_eq_true_iff.mp hpred with h | h
      · exact h
      · rw [hthree] at h; exact absurd h (by simp)
    have hdig' := hdig
    unfold isWcagDigitsTag at hdig'
    simp only [Bool.and_eq_true, beq_iff_eq, decide_eq_true_eq, List.all_eq_true] at hdig'
    obtain ⟨⟨htake, _⟩, hall⟩ := hdig'
    have hshort : u.data.length < 7 := by
      have hlen4 : 4 ≤ u.data.length := by
        have h' := congrArg List.length htake
        rw [List.length_take] at h'
        norm_num at h'
        have hconv : u.data.length = u.length := rfl
        omega
      by_contra hlong
      push_neg at hlong
      have h3 : 3 ≤ (u.data.drop 4).length := by
        rw [List.length_drop]; omega
      have htrue : isWcagThreeDigitsTag u.data = true := by
        unfold isWcagThreeDigitsTag
        simp only [Bool.and_eq_true, beq_iff_eq, decide_eq_true_eq, List.all_eq_true]
        exact ⟨⟨htake, h3⟩, hall⟩
      rw [hthree] at htrue
      exact absurd htrue (by simp)
    rw [wcagCapture_eq_none_of_short u.data hshort]
    simp

/-- Witness for C8: a tag matching `wcag\d\d\d+` parses to key "1.4.3"
(AODA-relevant), and a tag list whose only wcag-shaped tag is the
short `wcag21` is not AODA-relevant. -/
theorem c8_wcag_extraction_and_relevance_witness :
    "wcag143" ∈ extractWcagCriteria ["wcag143", "cat.color"] ∧
    wcagCapture "wcag143".data = some ('1', '4', ['3']) ∧
    isAodaRelevant (extractWcagCriteria ["wcag21", "best-practice"]) = false := by
  have h1 := (c8_wcag_extraction_and_relevance.1 ["wcag143", "cat.color"] "wcag143"
    (by simp) (by decide))
  have h2 := c8_wcag_extraction_and_relevance.2 ["wcag21", "best-practice"] (by decide)
  refine ⟨h1.1, ?_, h2⟩
  obtain ⟨d1, d2, ds, hcap, hshape, _⟩ := h1.2
  have : d1 = '1' ∧ d2 = '4' ∧ ds = ['3'] := by
    have : "wcag143".data = 'w' :: 'c' :: 'a' :: 'g' :: d1 :: d2 :: ds := hshape
    simp only [String.data] at this
    injection this with _ this; injection this with _ this; injection this with _ this
    injection this with _ this; injection this with h1' this; injection this with h2' h3'
    exact ⟨h1'.symm, h2'.symm, h3'.symm⟩
  rw [hcap, this.1, this.2.1, this.2.2]

lemma execInSandboxModel_timeout_aux (timeoutMs : Nat) :
    ∀ (trace : List (Nat × ExecEvent)) (buf : List Nat),
      (∀ te ∈ trace, isStreamSettlingEvent te.2 = true → timeoutMs ≤ te.1) →
      execInSandboxModel timeoutMs trace buf =
        .resolved (demuxFrames (buf ++ dataReceivedBefore timeoutMs trace)).1 (-1) := by
  intro trace
  induction trace with
  | nil => intro buf _; simp [execInSandboxModel, dataReceivedBefore]
  | cons te rest ih =>
      intro buf h
      obtain ⟨t, e⟩ := te
      by_cases ht : timeoutMs ≤ t
      · simp [execInSandboxModel, dataReceivedBefore, ht]
      · cases e with
        | data chunk =>
            have := ih (buf ++ chunk) fun te' hte' => h te' (List.mem_cons_of_mem _ hte')
            simp [execInSandboxModel, dataReceivedBefore, ht, this, List.append_assoc]
        | streamEnd insp =>
            exact absurd (h (t, .streamEnd insp) (List.mem_cons_self _ _) rfl) ht
        | streamError =>
            exact absurd (h (t, .streamError) (List.mem_cons_self _ _) rfl) ht

/-- **C6**: if every stream-settling event (end/error) arrives at or after
the wall-clock timeout, `execInSandbox` resolves normally with the sentinel
exit code −1 and the stdout demuxed from the chunks buffered before the
timer fired — it does not reject. -/
theorem c6_exec_timeout_resolves_sentinel
    (timeoutMs : Nat) (trace : List (Nat × ExecEvent))
    (h : ∀ te ∈ trace, isStreamSettlingEvent te.2 = true → timeoutMs ≤ te.1) :
    execInSandboxModel timeoutMs trace [] =
      .resolved (demuxFrames (dataReceivedBefore timeoutMs trace)).1 (-1) ∧
    execInSandboxModel timeoutMs trace [] ≠ ExecOutcome.rejected := by
  have := execInSandboxModel_timeout_aux timeoutMs trace [] h
  simp only [List.nil_append] at this
  exact ⟨this, by rw [this]; intro hcontra; cases hcontra⟩

/-- Witness for C6: a trace with one stdout frame ("Hi") at 5 ms and a
stream end arriving only at 10 s, against a 1 s timeout. -/
theorem c6_exec_timeout_resolves_sentinel_witness :
    execInSandboxModel 1000
      [(5, ExecEvent.data [1, 0, 0, 0, 0, 0, 0, 2, 72, 105]),
       (10000, ExecEvent.streamEnd (Except.ok (some 0)))] [] =
      ExecOutcome.resolved [72, 105] (-1) := by
  have h := c6_exec_timeout_resolves_sentinel 1000
    [(5, ExecEvent.data [1, 0, 0, 0, 0, 0, 0, 2, 72, 105]),
     (10000, ExecEvent.streamEnd (Except.ok (some 0)))] (by decide)
  rw [h.1]
  decide

/-! ### Lemmas about the fix store -/

lemma fixUpdateRow_scanId (f : FixResult) (r : FixRow) :
    (fixUpdateRow f r).scanId = r.scanId := by
  unfold fixUpdateRow
  split <;> rfl

lemma fixUpdateRow_violationId (f : FixResult) (r : FixRow) :
    (fixUpdateRow f r).violationId = r.violationId := by
  unfold fixUpdateRow
  split <;> rfl

lemma fixUpdateRow_of_ne {f : FixResult} {r : FixRow}
    (h : r.violationId ≠ f.violationId) : fixUpdateRow f r = r := by
  unfold fixUpdateRow
  rw [if_neg h]

lemma fixUpsert_unique {scanId : String} {f : FixResult} {db : List FixRow}
    (h : uniqueViolationIds db) : uniqueViolationIds (fixUpsert scanId f db) := by
  unfold fixUpsert
  split
  · exact h.map (fixUpdateRow f) fun a b hab => by
      rw [fixUpdateRow_violationId, fixUpdateRow_violationId]; exact hab
  · next hp =>
      rw [uniqueViolationIds, List.pairwise_append]
      refine ⟨h, List.pairwise_singleton _ _, ?_⟩
      intro a ha b hb
      rw [List.mem_singleton] at hb
      subst hb
      have hfalse : db.any (fun r => decide (r.violationId = f.violationId)) = false := by
        exact Bool.eq_false_iff.mpr hp
      have := List.any_eq_false.mp hfalse a ha
      simpa [fixCreateRow] using this

lemma runFixUpserts_unique {scanId : String} {db : List FixRow}
    (h : uniqueViolationIds db) :
    ∀ fixes : List FixResult, uniqueViolationIds (runFixUpserts scanId fixes db) := by
  suffices haux : ∀ (fixes : List FixResult) (state : List FixRow),
      uniqueViolationIds state → uniqueViolationIds (runFixUpserts scanId fixes state) by
    intro fixes
    exact haux fixes db h
  intro fixes
  induction fixes with
  | nil => intro state hst; exact hst
  | cons f rest ih =>
      intro state hst
      exact ih (fixUpsert scanId f state) (fixUpsert_unique hst)

lemma fixDeleteMany_unique {scanId : String} {db : List FixRow}
    (h : uniqueViolationIds db) : uniqueViolationIds (fixDeleteMany scanId db) :=
  List.Pairwise.filter _ h

lemma mem_fixDeleteMany {scanId : String} {db : List FixRow} {r : FixRow}
    (h : r ∈ fixDeleteMany scanId db) : r ∈ db ∧ r.scanId ≠ scanId := by
  unfold fixDeleteMany at h
  rw [List.mem_filter] at h
  exact ⟨h.1, by simpa using h.2⟩

lemma fixUpsert_preserves_scan_row {scanId : String} {f : FixResult} {state : List FixRow}
    {v : String} (h : ∃ r ∈ state, r.scanId = scanId ∧ r.violationId = v) :
    ∃ r ∈ fixUpsert scanId f state, r.scanId = scanId ∧ r.violationId = v := by
  obtain ⟨r, hr, hscan, hvid⟩ := h
  unfold fixUpsert
  split
  · exact ⟨fixUpdateRow f r, List.mem_map_of_mem _ hr,
      by rw [fixUpdateRow_scanId]; exact hscan, by rw [fixUpdateRow_violationId]; exact hvid⟩
  · exact ⟨r, List.mem_append_left _ hr, hscan, hvid⟩

lemma runFixUpserts_preserves_scan_row {scanId : String} {v : String} :
    ∀ (fixes : List FixResult) (state : List FixRow),
      (∃ r ∈ state, r.scanId = scanId ∧ r.violationId = v) →
      ∃ r ∈ runFixUpserts scanId fixes state, r.scanId = scanId ∧ r.violationId = v := by
  intro fixes
  induction fixes with
  | nil => intro state h; exact h
  | cons f rest ih =>
      intro state h
      exact ih (fixUpsert scanId f state) (fixUpsert_preserves_scan_row h)

lemma fixUpsert_contains_upserted {scanId : String} {f : FixResult} {state : List FixRow}
    {vids : List String}
    (hforeign : ∀ r ∈ state, r.scanId ≠ scanId → r.violationId ∉ vids)
    (hf : f.violationId ∈ vids) :
    ∃ r ∈ fixUpsert scanId f state, r.scanId = scanId ∧ r.violationId = f.violationId := by
  unfold fixUpsert
  split
  · next hp =>
      obtain ⟨r0, hr0, hr0v⟩ := List.any_eq_true.mp hp
      have hr0scan : r0.scanId = scanId := by
        by_contra hne
        exact hforeign r0 hr0 hne (by rw [of_decide_eq_true hr0v]; exact hf)
      refine ⟨fixUpdateRow f r0, List.mem_map_of_mem _ hr0, ?_, ?_⟩
      · rw [fixUpdateRow_scanId]; exact hr0scan
      · rw [fixUpdateRow_violationId]; exact of_decide_eq_true hr0v
  · exact ⟨fixCreateRow scanId f, List.mem_append_right _ (List.mem_singleton_self _),
      rfl, rfl⟩

lemma fixUpsert_foreign {scanId : String} {f : FixResult} {state : List FixRow}
    {vids : List String}
    (hforeign : ∀ r ∈ state, r.scanId ≠ scanId → r.violationId ∉ vids)
    (hf : f.violationId ∈ vids) :
    ∀ r' ∈ fixUpsert scanId f state, r'.scanId ≠ scanId → r' ∈ state ∧ r'.violationId ∉ vids := by
  intro r' hr' hscan
  unfold fixUpsert at hr'
  split at hr'
  · obtain ⟨r, hr, hrr'⟩ := List.mem_map.mp hr'
    have hrscan : r.scanId ≠ scanId := by
      rw [← hrr'] at hscan
      rw [fixUpdateRow_scanId] at hscan
      exact hscan
    have hrnv : r.violationId ∉ vids := hforeign r hr hrscan
    have hne : r.violationId ≠ f.violationId := fun he => hrnv (he ▸ hf)
    rw [← hrr', fixUpdateRow_of_ne hne]
    exact ⟨hr, hrnv⟩
  · rw [List.mem_append] at hr'
    rcases hr' with hr' | hr'
    · exact ⟨hr', hforeign r' hr' hscan⟩
    · rw [List.mem_singleton] at hr'
      subst hr'
      exact absurd rfl hscan

lemma fixUpsert_scan_rows {scanId : String} {f : FixResult} {state : List FixRow} :
    ∀ r' ∈ fixUpsert scanId f state, r'.scanId = scanId →
      r'.violationId = f.violationId ∨
        ∃ r ∈ state, r.scanId = scanId ∧ r.violationId = r'.violationId := by
  intro r' hr' hscan'
  unfold fixUpsert at hr'
  split at hr'
  · obtain ⟨r, hr, hrr'⟩ := List.mem_map.mp hr'
    by_cases hv : r.violationId = f.violationId
    · left
      rw [← hrr', fixUpdateRow_violationId]
      exact hv
    · right
      rw [← hrr', fixUpdateRow_of_ne hv] at hscan' ⊢
      exact ⟨r, hr, hscan', rfl⟩
  · rw [List.mem_append] at hr'
    rcases hr' with hr' | hr'
    · exact Or.inr ⟨r', hr', hscan', rfl⟩
    · rw [List.mem_singleton] at hr'
      subst hr'
      exact Or.inl rfl

lemma runFixUpserts_cons {scanId : String} {f : FixResult} {rest : List FixResult}
    {state : List FixRow} :
    runFixUpserts scanId (f :: rest) state =
      runFixUpserts scanId rest (fixUpsert scanId f state) := rfl

lemma runFixUpserts_chars {scanId : String} {vids : List String} :
    ∀ (fixes : List FixResult) (state : List FixRow),
      (∀ f ∈ fixes, f.violationId ∈ vids) →
      (∀ r ∈ state, r.scanId ≠ scanId → r.violationId ∉ vids) →
      (∀ r' ∈ runFixUpserts scanId fixes state,
        (r'.scanId = scanId →
          r'.violationId ∈ fixes.map (·.violationId) ∨
            ∃ r ∈ state, r.scanId = scanId ∧ r.violationId = r'.violationId) ∧
        (r'.scanId ≠ scanId → r' ∈ state)) ∧
      (∀ f ∈ fixes, ∃ r' ∈ runFixUpserts scanId fixes state,
        r'.scanId = scanId ∧ r'.violationId = f.violationId) := by
  intro fixes
  induction fixes with
  | nil =>
      intro state _ _
      refine ⟨fun r' hr' => ⟨fun hs => Or.inr ⟨r', hr', hs, rfl⟩, fun _ => hr'⟩, ?_⟩
      intro f hf
      cases hf
  | cons f rest ih =>
      intro state hvids hforeign
      have hfv : f.violationId ∈ vids := hvids f (List.mem_cons_self _ _)
      have hforeign1 : ∀ r ∈ fixUpsert scanId f state,
          r.scanId ≠ scanId → r.violationId ∉ vids :=
        fun r hr hs => (fixUpsert_foreign hforeign hfv r hr hs).2
      have hvids1 : ∀ g ∈ rest, g.violationId ∈ vids :=
        fun g hg => hvids g (List.mem_cons_of_mem _ hg)
      obtain ⟨ihA, ihB⟩ := ih (fixUpsert scanId f state) hvids1 hforeign1
      constructor
      · intro r' hr'
        rw [runFixUpserts_cons] at hr'
        obtain ⟨hA1, hA2⟩ := ihA r' hr'
        constructor
        · intro hs
          rcases hA1 hs with hin | ⟨r1, hr1, hr1s, hr1v⟩
          · exact Or.inl (by rw [List.map_cons]; exact List.mem_cons_of_mem _ hin)
          · rcases fixUpsert_scan_rows r1 hr1 hr1s with hveq | ⟨r0, hr0, hr0s, hr0v⟩
            · left
              rw [← hr1v, hveq]
              simp
            · right
              exact ⟨r0, hr0, hr0s, hr0v.trans hr1v⟩
        · intro hs
          exact (fixUpsert_foreign hforeign hfv r' (hA2 hs) hs).1
      · intro g hg
        rcases List.mem_cons.mp hg with hg | hg
        · rw [hg, runFixUpserts_cons]
          exact runFixUpserts_preserves_scan_row rest (fixUpsert scanId f state)
            (fixUpsert_contains_upserted hforeign hfv)
        · rw [runFixUpserts_cons]
          exact ihB g hg

/-- **C2**: a fixing re-run deletes every prior Fix row of the scan
before regenerating; each generated fix is stored by an upsert keyed by
`violationId`, so the unique-violation invariant holds at every
intermediate point of the run, and afterwards the scan's rows are exactly
the violation ids upserted in this run (full replace), with rows of other
scans untouched. -/
theorem c2_fix_full_replace :
    (∀ (db : List FixRow) (scanId : String) (r : FixRow),
        r ∈ fixDeleteMany scanId db → r.scanId ≠ scanId) ∧
    (∀ (db : List FixRow) (scanId : String) (fixes1 : List FixResult),
        uniqueViolationIds db →
        uniqueViolationIds (runFixUpserts scanId fixes1 (fixDeleteMany scanId db))) ∧
    (∀ (db : List FixRow) (scanId : String) (vids : List String) (fixes : List FixResult),
        (∀ r ∈ db, r.violationId ∈ vids → r.scanId = scanId) →
        (∀ f ∈ fixes, f.violationId ∈ vids) →
        (∀ v : String,
          (∃ r ∈ generateFixesDb scanId fixes db, r.scanId = scanId ∧ r.violationId = v) ↔
            v ∈ fixes.map (·.violationId)) ∧
        (∀ r ∈ generateFixesDb scanId fixes db, r.scanId ≠ scanId → r ∈ db)) := by
  refine ⟨?_, ?_, ?_⟩
  · intro db scanId r hr
    exact (mem_fixDeleteMany hr).2
  · intro db scanId fixes1 h
    exact runFixUpserts_unique (fixDeleteMany_unique h) fixes1
  · intro db scanId vids fixes hco hfv
    have hforeign : ∀ r ∈ fixDeleteMany scanId db,
        r.scanId ≠ scanId → r.violationId ∉ vids := by
      intro r hr hs hin
      exact hs (hco r (mem_fixDeleteMany hr).1 hin)
    obtain ⟨hA, hB⟩ := runFixUpserts_chars fixes (fixDeleteMany scanId db) hfv hforeign
    constructor
    · intro v
      constructor
      · rintro ⟨r, hr, hs, hv⟩
        rcases (hA r hr).1 hs with hin | ⟨r1, hr1, hr1s, _⟩
        · rw [← hv]
          exact hin
        · exact absurd hr1s (mem_fixDeleteMany hr1).2
      · intro hv
        rw [List.mem_map] at hv
        obtain ⟨g, hg, hgv⟩ := hv
        obtain ⟨r, hr, hrs, hrv⟩ := hB g hg
        exact ⟨r, hr, hrs, hrv.trans hgv⟩
    · intro r hr hs
      exact (mem_fixDeleteMany ((hA r hr).2 hs)).1

/-- Witness for C2: one prior row for scan "s1" and one for scan "s2"; a
run upserting violation "v1" leaves the unique invariant intact, stores
exactly "v1" for "s1" and keeps the "s2" row. -/
theorem c2_fix_full_replace_witness :
    uniqueViolationIds (runFixUpserts "s1" [⟨"a.ts", "x", "y", "e", "v1"⟩]
      (fixDeleteMany "s1"
        [⟨"s1", "v0", "b.ts", "o", "n", "e0", "pending"⟩,
         ⟨"s2", "w0", "c.ts", "o", "n", "e1", "pending"⟩])) ∧
    (∃ r ∈ generateFixesDb "s1" [⟨"a.ts", "x", "y", "e", "v1"⟩]
        [⟨"s1", "v0", "b.ts", "o", "n", "e0", "pending"⟩,
         ⟨"s2", "w0", "c.ts", "o", "n", "e1", "pending"⟩],
      r.scanId = "s1" ∧ r.violationId = "v1") := by
  constructor
  · exact c2_fix_full_replace.2.1 _ "s1" _ (by unfold uniqueViolationIds; decide)
  · exact ((c2_fix_full_replace.2.2 _ "s1" ["v0", "v1"] _ (by decide) (by decide)).1
      "v1").mpr (by decide)

lemma fixUpsert_preserves_vid_row {scanId : String} {f : FixResult} {state : List FixRow}
    {v : String} (h : ∃ r ∈ state, r.violationId = v) :
    ∃ r ∈ fixUpsert scanId f state, r.violationId = v := by
  obtain ⟨r, hr, hv⟩ := h
  unfold fixUpsert
  split
  · exact ⟨fixUpdateRow f r, List.mem_map_of_mem _ hr,
      by rw [fixUpdateRow_violationId]; exact hv⟩
  · exact ⟨r, List.mem_append_left _ hr, hv⟩

lemma fixUpsert_adds_vid_row {scanId : String} {f : FixResult} {state : List FixRow} :
    ∃ r ∈ fixUpsert scanId f state, r.violationId = f.violationId := by
  unfold fixUpsert
  split
  · next hp =>
      obtain ⟨r0, hr0, hr0v⟩ := List.any_eq_true.mp hp
      exact ⟨fixUpdateRow f r0, List.mem_map_of_mem _ hr0,
        by rw [fixUpdateRow_violationId]; exact of_decide_eq_true hr0v⟩
  · exact ⟨fixCreateRow scanId f, List.mem_append_right _ (List.mem_singleton_self _), rfl⟩

lemma runFixUpserts_preserves_vid_row {scanId : String} {v : String} :
    ∀ (fixes : List FixResult) (state : List FixRow),
      (∃ r ∈ state, r.violationId = v) →
      ∃ r ∈ runFixUpserts scanId fixes state, r.violationId = v := by
  intro fixes
  induction fixes with
  | nil => intro state h; exact h
  | cons f rest ih =>
      intro state h
      rw [runFixUpserts_cons]
      exact ih _ (fixUpsert_preserves_vid_row h)

lemma runFixUpserts_mem_vid {scanId : String} {f : FixResult} :
    ∀ (fixes : List FixResult) (state : List FixRow), f ∈ fixes →
      ∃ r ∈ runFixUpserts scanId fixes state, r.violationId = f.violationId := by
  intro fixes
  induction fixes with
  | nil => intro state h; cases h
  | cons g rest ih =>
      intro state h
      rw [runFixUpserts_cons]
      rcases List.mem_cons.mp h with h | h
      · rw [h]
        exact runFixUpserts_preserves_vid_row rest _ fixUpsert_adds_vid_row
      · exact ih _ h

/-- **C3**: `applySnippetFix` tries the strategies in the fixed order —
exact substring, CRLF-normalised substring, trimmed substring, line-level
replacement (attempted only under equal line counts, and replacing only
changed lines that occur exactly once in the current content); when no
strategy matches, the content is returned unchanged with `applied =
false`, while the fix is still stored as a Fix row by the run (dropped
from the applied set, not from the records). -/
theorem c3_applySnippetFix_strategy_order :
    (∀ content originalCode fixedCode i,
        originalCode ≠ [] →
        indexOfSub? originalCode content = some i →
        applySnippetFix content originalCode fixedCode =
          (content.take i ++ fixedCode ++ content.drop (i + originalCode.length), true)) ∧
    (∀ content originalCode fixedCode i,
        originalCode ≠ [] →
        indexOfSub? originalCode content = none →
        indexOfSub? (normalizeCrlf originalCode) (normalizeCrlf content) = some i →
        applySnippetFix content originalCode fixedCode =
          ((normalizeCrlf content).take i ++ normalizeCrlf fixedCode ++
            (normalizeCrlf content).drop (i + (normalizeCrlf originalCode).length), true)) ∧
    (∀ content originalCode fixedCode i,
        originalCode ≠ [] →
        indexOfSub? originalCode content = none →
        indexOfSub? (normalizeCrlf originalCode) (normalizeCrlf content) = none →
        jsTrim (normalizeCrlf originalCode) ≠ [] →
        indexOfSub? (jsTrim (normalizeCrlf originalCode)) (normalizeCrlf content) = some i →
        applySnippetFix content originalCode fixedCode =
          ((normalizeCrlf content).take i ++ jsTrim (normalizeCrlf fixedCode) ++
            (normalizeCrlf content).drop
              (i + (jsTrim (normalizeCrlf originalCode)).length), true)) ∧
    (∀ content originalCode fixedCode,
        originalCode ≠ [] →
        indexOfSub? originalCode content = none →
        indexOfSub? (normalizeCrlf originalCode) (normalizeCrlf content) = none →
        indexOfSub? (jsTrim (normalizeCrlf originalCode)) (normalizeCrlf content) = none →
        (splitLines (normalizeCrlf originalCode)).length ≠
          (splitLines (normalizeCrlf fixedCode)).length →
        applySnippetFix content originalCode fixedCode = (content, false)) ∧
    (∀ (st : List Char × Bool) (fromLine toLine : List Char),
        countLineOccurrences st.1 fromLine ≠ 1 →
        lineFixStep st (fromLine, toLine) = st) ∧
    (∀ content originalCode fixedCode,
        originalCode ≠ [] →
        indexOfSub? originalCode content = none →
        indexOfSub? (normalizeCrlf originalCode) (normalizeCrlf content) = none →
        indexOfSub? (jsTrim (normalizeCrlf originalCode)) (normalizeCrlf content) = none →
        (applyLineLevelFix (normalizeCrlf content) (normalizeCrlf originalCode)
          (normalizeCrlf fixedCode)).2 = false →
        applySnippetFix content originalCode fixedCode = (content, false)) ∧
    (∀ (db : List FixRow) (scanId : String) (fixes : List FixResult) (f : FixResult)
        (content : List Char),
        f ∈ fixes →
        applySnippetFix content f.originalCode.data f.fixedCode.data = (content, false) →
        ∃ r ∈ generateFixesDb scanId fixes db, r.violationId = f.violationId) := by
  refine ⟨?_, ?_, ?_, ?_, ?_, ?_, ?_⟩
  · intro content originalCode fixedCode i hne hfound
    unfold applySnippetFix
    rw [if_neg hne, hfound]
  · intro content originalCode fixedCode i hne hnone hfound
    unfold applySnippetFix
    rw [if_neg hne, hnone]
    simp only [hfound]
  · intro content originalCode fixedCode i hne hnone1 hnone2 htrim hfound
    unfold applySnippetFix
    rw [if_neg hne, hnone1]
    simp only [hnone2, if_neg htrim, hfound]
  · intro content originalCode fixedCode hne hnone1 hnone2 hnone3 hlines
    have htrim : jsTrim (normalizeCrlf originalCode) ≠ [] := by
      intro h
      rw [h] at hnone3
      unfold indexOfSub? at hnone3
      revert hnone3
      cases normalizeCrlf content <;> simp [indexOfSub?, List.isPrefixOf]
    unfold applySnippetFix
    rw [if_neg hne, hnone1]
    simp only [hnone2, if_neg htrim, hnone3]
    unfold applyLineLevelFix
    rw [if_pos hlines]
    simp
  · intro st fromLine toLine hcount
    unfold lineFixStep
    split_ifs <;> rfl
  · intro content originalCode fixedCode hne hnone1 hnone2 hnone3 hlinefail
    have htrim : jsTrim (normalizeCrlf originalCode) ≠ [] := by
      intro h
      rw [h] at hnone3
      unfold indexOfSub? at hnone3
      revert hnone3
      cases normalizeCrlf content <;> simp [indexOfSub?, List.isPrefixOf]
    unfold applySnippetFix
    rw [if_neg hne, hnone1]
    simp only [hnone2, if_neg htrim, hnone3]
    rw [if_neg (by rw [hlinefail]; exact Bool.false_ne_true)]
  · intro db scanId fixes f content hf _
    exact runFixUpserts_mem_vid fixes (fixDeleteMany scanId db) hf

/-- Witness for C3: an exact match applies via strategy 1; a CRLF-only
difference applies via strategy 2; an absent snippet leaves the content
unchanged and unapplied, yet its Fix row is present after the run. -/
theorem c3_applySnippetFix_strategy_order_witness :
    applySnippetFix "const a = 1;".data "a = 1".data "a = 2".data =
      ("const a = 2;".data, true) ∧
    applySnippetFix ['x', '\r', '\n', 'y'] ['x', '\n', 'y'] ['z'] = (['z'], true) ∧
    applySnippetFix "abc".data "zzz".data "www".data = ("abc".data, false) ∧
    (∃ r ∈ generateFixesDb "s1" [⟨"a.ts", "zzz", "www", "e", "v1"⟩] [],
      r.violationId = "v1") := by
  refine ⟨?_, ?_, ?_, ?_⟩
  · rw [c3_applySnippetFix_strategy_order.1 _ _ _ 6 (by decide) (by decide)]
    decide
  · rw [c3_applySnippetFix_strategy_order.2.1 _ _ _ 0 (by decide) (by decide) (by decide)]
    decide
  · exact c3_applySnippetFix_strategy_order.2.2.2.2.2.1 _ _ _ (by decide) (by decide)
      (by decide) (by decide) (by decide)
  · exact c3_applySnippetFix_strategy_order.2.2.2.2.2.2 [] "s1" _ ⟨"a.ts", "zzz", "www", "e", "v1"⟩
      "abc".data (by decide) (by decide)

/-- **C4**: a fixing run that produced zero fixes marks the scan
"complete" (never "failed"), carries the before-score forward unchanged
as the after-score (`scan.score ?? calculateAccessibilityScore(violations)`),
and stores the diagnostic explanation in `errorMessage`. -/
theorem c4_zero_fixes_marks_complete
    (scan : ScanModel) (selectedModel : String) (processedViolationCount : Nat)
    (attemptedBatchCount : Nat) (diagnostics : List String)
    (postFixScan : Except String (List (String × Nat))) (storedFixes : List FixRow)
    (afterScreenshot : Option String) (warnings : List String) :
    (generateFixesFinalize scan [] selectedModel processedViolationCount attemptedBatchCount
        diagnostics postFixScan storedFixes afterScreenshot warnings).status = "complete" ∧
    (generateFixesFinalize scan [] selectedModel processedViolationCount attemptedBatchCount
        diagnostics postFixScan storedFixes afterScreenshot warnings).status ≠ "failed" ∧
    (generateFixesFinalize scan [] selectedModel processedViolationCount attemptedBatchCount
        diagnostics postFixScan storedFixes afterScreenshot warnings).scoreAfter =
      some (scan.score.getD (calculateAccessibilityScore (scan.violations.map (·.impact)))) ∧
    (∀ s0 : ℤ, scan.score = some s0 →
      (generateFixesFinalize scan [] selectedModel processedViolationCount attemptedBatchCount
          diagnostics postFixScan storedFixes afterScreenshot warnings).scoreAfter = some s0) ∧
    (generateFixesFinalize scan [] selectedModel processedViolationCount attemptedBatchCount
        diagnostics postFixScan storedFixes afterScreenshot warnings).errorMessage =
      some (noFixesMessage selectedModel processedViolationCount attemptedBatchCount
        diagnostics) := by
  have hfin : generateFixesFinalize scan [] selectedModel processedViolationCount
      attemptedBatchCount diagnostics postFixScan storedFixes afterScreenshot warnings =
      finalizeNoFixes scan selectedModel processedViolationCount attemptedBatchCount
        diagnostics := by
    unfold generateFixesFinalize
    rw [if_pos rfl]
  rw [hfin]
  refine ⟨rfl, by simp [finalizeNoFixes], rfl, ?_, rfl⟩
  intro s0 hs0
  unfold finalizeNoFixes
  simp [hs0]

/-- Witness for C4: a concrete scan with before-score 42 finishes
"complete" with after-score 42. -/
theorem c4_zero_fixes_marks_complete_witness :
    (generateFixesFinalize
        ⟨"fixing", some 42, none, none, some "shot", none, [⟨"v1", "serious"⟩]⟩
        [] "opencode/glm-5-free" 3 2 ["d1"] (Except.error "x") [] none []).status =
      "complete" ∧
    (generateFixesFinalize
        ⟨"fixing", some 42, none, none, some "shot", none, [⟨"v1", "serious"⟩]⟩
        [] "opencode/glm-5-free" 3 2 ["d1"] (Except.error "x") [] none []).scoreAfter =
      some 42 := by
  have h := c4_zero_fixes_marks_complete
    ⟨"fixing", some 42, none, none, some "shot", none, [⟨"v1", "serious"⟩]⟩
    "opencode/glm-5-free" 3 2 ["d1"] (Except.error "x") [] none []
  exact ⟨h.1, h.2.2.2.1 42 rfl⟩

lemma isPrefixOf_self_segs : ∀ l : List (List Char), l.isPrefixOf l = true := by
  intro l
  induction l with
  | nil => rfl
  | cons a t ih => simp [List.isPrefixOf, ih]

lemma applyFixStep_outside {repoRoot : List (List Char)} {p : List (List Char)}
    (hp : List.isPrefixOf repoRoot p = false) (st : RepoFs × Nat × Nat)
    (kv : List Char × List FixResult) :
    (applyFixStep repoRoot st kv).1 p = st.1 p := by
  unfold applyFixStep
  dsimp only
  split
  · next hguard =>
      have hne : p ≠ resolveSegs repoRoot kv.1 := by
        intro heq
        rcases hguard with heq' | ⟨hpre, _⟩
        · rw [heq, heq'] at hp
          rw [isPrefixOf_self_segs] at hp
          cases hp
        · rw [← heq] at hpre
          rw [hpre] at hp
          cases hp
      cases hread : st.1 (resolveSegs repoRoot kv.1) with
      | none => rfl
      | some originalContent =>
          simp only []
          split
          · rfl
          · simp only [if_neg hne]
  · rfl

lemma applyFold_outside {repoRoot : List (List Char)} {p : List (List Char)}
    (hp : List.isPrefixOf repoRoot p = false) :
    ∀ (groups : List (List Char × List FixResult)) (st : RepoFs × Nat × Nat),
      ((groups.foldl (applyFixStep repoRoot) st).1) p = st.1 p := by
  intro groups
  induction groups with
  | nil => intro st; rfl
  | cons kv rest ih =>
      intro st
      rw [List.foldl_cons]
      rw [ih (applyFixStep repoRoot st kv)]
      exact applyFixStep_outside hp st kv

/-- **C10**: `applyFixesToRepoPath` writes only to paths that resolve to
the repository root or strictly under it (the segment-level reading of
`absolutePath === repoRoot || absolutePath.startsWith(repoRoot + sep)`);
every path of which the root is not a prefix — in particular one escaping
through `..` segments — is left untouched. -/
theorem c10_applyFixes_never_escapes_root
    (repoRoot : List (List Char)) (fixes : List FixResult) (fs : RepoFs)
    (p : List (List Char)) (hp : List.isPrefixOf repoRoot p = false) :
    (applyFixesToRepoPath repoRoot fixes fs).1 p = fs p := by
  unfold applyFixesToRepoPath
  exact applyFold_outside hp (groupFixesByFile fixes) (fs, 0, 0)

/-- Witness for C10: a fix whose file path escapes through `..` resolves
to a sibling of the root, and the file there keeps its content. -/
theorem c10_applyFixes_never_escapes_root_witness :
    resolveSegs [['h', 'o', 'm', 'e'], ['r', 'e', 'p', 'o']]
        (normalizeRepoFilePath (some "../evil.txt")) =
      [['h', 'o', 'm', 'e'], ['e', 'v', 'i', 'l', '.', 't', 'x', 't']] ∧
    (applyFixesToRepoPath [['h', 'o', 'm', 'e'], ['r', 'e', 'p', 'o']]
        [⟨"../evil.txt", "x", "y", "e", "v1"⟩]
        (fun q => if q = [['h', 'o', 'm', 'e'], ['e', 'v', 'i', 'l', '.', 't', 'x', 't']]
          then some ['A'] else none)).1
        [['h', 'o', 'm', 'e'], ['e', 'v', 'i', 'l', '.', 't', 'x', 't']] =
      some ['A'] := by
  constructor
  · decide
  · rw [c10_applyFixes_never_escapes_root _ _ _ _ (by decide)]
    decide

/-- **C5**: in a worker's batch loop, after 3 consecutive batches with
zero extracted fixes (and with batches left and budget remaining, so the
loop reaches its next check), no further batch is invoked and the run
records the early-bail diagnostic and warning citing the 3 consecutive
empty batches. -/
theorem c5_consecutive_empty_circuit_breaker
    (cfg total : Nat) (b1 b2 b3 b4 : BatchSim) (rest : List BatchSim)
    (h1 : b1.elapsedBefore < total) (h2 : b2.elapsedBefore < total)
    (h3 : b3.elapsedBefore < total) (h4 : b4.elapsedBefore < total)
    (hs1 : b1.size ≠ 0) (hs2 : b2.size ≠ 0) (hs3 : b3.size ≠ 0)
    (hf1 : b1.fixCount = 0) (hf2 : b2.fixCount = 0) (hf3 : b3.fixCount = 0) :
    ((runBatchLoop cfg total (b1 :: b2 :: b3 :: b4 :: rest)).invoked.map Prod.fst =
      [0, 1, 2]) ∧
    earlyBailDiagnostic 3 ∈
      (runBatchLoop cfg total (b1 :: b2 :: b3 :: b4 :: rest)).diagnostics ∧
    (runBatchLoop cfg total (b1 :: b2 :: b3 :: b4 :: rest)).warning =
      some (earlyBailWarning 3) := by
  have hb1 : ((total : Int) - (b1.elapsedBefore : Int) ≤ 0) = False :=
    eq_false (by omega)
  have hb2 : ((total : Int) - (b2.elapsedBefore : Int) ≤ 0) = False :=
    eq_false (by omega)
  have hb3 : ((total : Int) - (b3.elapsedBefore : Int) ≤ 0) = False :=
    eq_false (by omega)
  have hb4 : ((total : Int) - (b4.elapsedBefore : Int) ≤ 0) = False :=
    eq_false (by omega)
  have hsz1 : (b1.size = 0) = False := eq_false hs1
  have hsz2 : (b2.size = 0) = False := eq_false hs2
  have hsz3 : (b3.size = 0) = False := eq_false hs3
  refine ⟨?_, ?_, ?_⟩ <;>
    simp [runBatchLoop, runBatches, initialLoopState, MAX_CONSECUTIVE_EMPTY_BATCHES,
      hb1, hb2, hb3, hb4, hsz1, hsz2, hsz3, hf1, hf2, hf3, List.mem_append]

/-- Witness for C5: three instantly-empty batches followed by a fourth
pending batch, inside a 480 s budget. -/
theorem c5_consecutive_empty_circuit_breaker_witness :
    ((runBatchLoop 180 480
        [⟨0, 1, 0, 100⟩, ⟨1, 1, 0, 100⟩, ⟨2, 1, 0, 100⟩, ⟨3, 1, 5, 100⟩]).invoked.map
      Prod.fst = [0, 1, 2]) ∧
    earlyBailDiagnostic 3 ∈
      (runBatchLoop 180 480
        [⟨0, 1, 0, 100⟩, ⟨1, 1, 0, 100⟩, ⟨2, 1, 0, 100⟩, ⟨3, 1, 5, 100⟩]).diagnostics := by
  have h := c5_consecutive_empty_circuit_breaker 180 480
    ⟨0, 1, 0, 100⟩ ⟨1, 1, 0, 100⟩ ⟨2, 1, 0, 100⟩ ⟨3, 1, 5, 100⟩ []
    (by norm_num) (by norm_num) (by norm_num) (by norm_num)
    (by norm_num) (by norm_num) (by norm_num) rfl rfl rfl
  exact ⟨h.1, h.2.1⟩

lemma runBatches_invoked_spec (cfg total : Nat) :
    ∀ (batches : List BatchSim) (idx : Nat) (st : LoopState) (p : Nat × Int),
      p ∈ (runBatches cfg total batches idx st).invoked →
      p ∈ st.invoked ∨
        ∃ j b, batches.get? j = some b ∧ p.1 = idx + j ∧
          0 < (total : Int) - (b.elapsedBefore : Int) ∧
          p.2 = max 15 (min (cfg : Int) ((total : Int) - (b.elapsedBefore : Int))) := by
  intro batches
  induction batches with
  | nil => intro idx st p hp; exact Or.inl hp
  | cons b rest ih =>
      intro idx st p hp
      unfold runBatches at hp
      dsimp only at hp
      by_cases hbudget : (total : Int) - (b.elapsedBefore : Int) ≤ 0
      · rw [if_pos hbudget] at hp
        exact Or.inl hp
      · rw [if_neg hbudget] at hp
        by_cases hcons : MAX_CONSECUTIVE_EMPTY_BATCHES ≤ st.consecutiveEmpty
        · rw [if_pos hcons] at hp
          exact Or.inl hp
        · rw [if_neg hcons] at hp
          by_cases hsize : b.size = 0
          · rw [if_pos hsize] at hp
            exact Or.inl hp
          · rw [if_neg hsize] at hp
            rcases ih (idx + 1) _ p hp with hin | ⟨j, b', hj, hfst, hpos, ht⟩
            · have hin' : p ∈ st.invoked ++
                  [(idx, max 15 (min (cfg : Int)
                    ((total : Int) - (b.elapsedBefore : Int))))] := by
                by_cases hfc : b.fixCount = 0
                · rw [if_pos hfc] at hin
                  simpa using hin
                · rw [if_neg hfc] at hin
                  simpa using hin
              rw [List.mem_append] at hin'
              rcases hin' with hin' | hin'
              · exact Or.inl hin'
              · rw [List.mem_singleton] at hin'
                refine Or.inr ⟨0, b, rfl, ?_, by omega, ?_⟩
                · rw [hin']
                  simp
                · rw [hin']
            · exact Or.inr ⟨j + 1, b', by simpa using hj, by omega, hpos, ht⟩

/-- **C7 counterexample**: with a configured per-batch timeout of 180 s
and only 10 s of budget left, the loop passes 15 s to the agent, not
`min(180, 10) = 10` — the claim omits the 15-second floor. -/
theorem c7_counterexample_min_floor :
    (runBatchLoop 180 480 [⟨470, 1, 1, 5000⟩]).invoked = [(0, 15)] ∧
    min (180 : Int) ((480 : Int) - (470 : Int)) = 10 ∧ (10 : Int) ≠ 15 := by
  refine ⟨?_, by norm_num, by norm_num⟩
  decide

/-- **C7 (amended)**: whenever the orchestrator starts a batch, the
per-batch timeout passed to the agent invocation equals
`max(15, min(configured per-batch timeout, remaining total budget))` in
seconds — i.e. the claim's `min(configured, remaining)` additionally
floored at 15 s — and a batch is only started with positive remaining
budget. -/
theorem c7_batch_timeout_formula
    (cfg total : Nat) (batches : List BatchSim) (p : Nat × Int)
    (hp : p ∈ (runBatchLoop cfg total batches).invoked) :
    ∃ b, batches.get? p.1 = some b ∧
      0 < (total : Int) - (b.elapsedBefore : Int) ∧
      p.2 = max 15 (min (cfg : Int) ((total : Int) - (b.elapsedBefore : Int))) := by
  rcases runBatches_invoked_spec cfg total batches 0 initialLoopState p hp with hin | h
  · cases hin
  · obtain ⟨j, b, hj, hfst, hpos, ht⟩ := h
    exact ⟨b, by rw [hfst]; simpa using hj, hpos, ht⟩

/-- Witness for C7's amended theorem: a concrete run whose single
invocation got the floored timeout. -/
theorem c7_batch_timeout_formula_witness :
    ∃ b, [BatchSim.mk 470 1 1 5000].get? (0, (15 : Int)).1 = some b ∧
      0 < (480 : Int) - (b.elapsedBefore : Int) ∧
      (0, (15 : Int)).2 = max 15 (min (180 : Int) ((480 : Int) - (b.elapsedBefore : Int))) :=
  c7_batch_timeout_formula 180 480 [⟨470, 1, 1, 5000⟩] (0, 15) (by decide)
